import Mathlib

/-!
Verification of the caption-stream parser of the quiz-question-retriever
repository.  Strings are modelled as `List Char`; the JavaScript
regular-expression replace with the global flag is modelled as a single
left-to-right non-rescanning pass (`regexReplace`), and the `forEach`
scans of `parseSubtitleFile` in the two source variants are modelled as
explicit accumulator recursions (`IndexTs.scanLoop`, `Part000.scanLoop`).
The marker-triggered variant's out-of-bounds lookahead on the last line
is modelled by returning `none` (the thrown TypeError).
-/

/-- Whitespace characters removed by JavaScript trim (the characters
that occur in this development). -/
def isJsWhitespace (c : Char) : Bool :=
  c == ' ' || c == '\t' || c == '\n' || c == '\r' || c == '\x0b' || c == '\x0c' || c == ' '

/-- JavaScript trim on a list of characters. -/
def trimJS (l : List Char) : List Char :=
  ((l.dropWhile isJsWhitespace).reverse.dropWhile isJsWhitespace).reverse

/-- JavaScript startsWith with a literal argument. -/
def startsWithSeq : List Char → List Char → Bool
  | [], _ => true
  | _ :: _, [] => false
  | p :: ps, c :: cs => p == c && startsWithSeq ps cs

/-- JavaScript includes with a literal argument: substring containment. -/
def containsSeq (pat : List Char) : List Char → Bool
  | [] => pat.isEmpty
  | c :: cs => startsWithSeq pat (c :: cs) || containsSeq pat cs

/-- JavaScript test of the anchored digits regular expression: the line is
one or more ASCII digits. -/
def isBareInt (l : List Char) : Bool :=
  !l.isEmpty && l.all Char.isDigit

/-- One character of a regular-expression alternative: a literal character
or the wildcard (any character except a line terminator). -/
inductive PatChar where
  | lit : Char → PatChar
  | dot : PatChar

/-- Whether one pattern character matches one character. -/
def matchPatChar : PatChar → Char → Bool
  | .lit a, c => a == c
  | .dot, c => !(c == '\n' || c == '\r')

/-- Match a pattern at the start of a string; on success return the
remaining suffix. -/
def matchPat : List PatChar → List Char → Option (List Char)
  | [], s => some s
  | _ :: _, [] => none
  | p :: ps, c :: cs => cond (matchPatChar p c) (matchPat ps cs) none

/-- Try the alternatives of a regular expression in order at the start of
the string (JavaScript alternation: the leftmost alternative wins).
Every alternative is nonempty, represented as its head and tail. -/
def firstMatch : List (PatChar × List PatChar) → List Char → Option (List Char)
  | [], _ => none
  | (p, ps) :: alts, s =>
    match matchPat (p :: ps) s with
    | some r => some r
    | none => firstMatch alts s

/-- One pass of JavaScript replace with a global regular expression and a
constant replacement, with explicit fuel; the fuel is instantiated with
the length of the string, which bounds the number of steps. -/
def replaceF (alts : List (PatChar × List PatChar)) (repl : List Char) : Nat → List Char → List Char
  | 0, s => s
  | _ + 1, [] => []
  | fuel + 1, c :: cs =>
    match firstMatch alts (c :: cs) with
    | some r => repl ++ replaceF alts repl fuel r
    | none => c :: replaceF alts repl fuel cs

/-- JavaScript replace with a global regular expression: a single
left-to-right pass, not rescanning replaced output. -/
def regexReplace (alts : List (PatChar × List PatChar)) (repl : List Char) (s : List Char) : List Char :=
  replaceF alts repl s.length s

/-- The three content filters both variants apply to a line before
appending: nonblank after trim, no arrow in the trimmed line, and not a
bare integer cue index. -/
def qualifiesLine (l : List Char) : Bool :=
  !(trimJS l).isEmpty && !containsSeq ("-->".toList) (trimJS l) && !isBareInt (trimJS l)

/-- The source pattern for a color-open tag: a literal angle bracket and
letter c, the wildcard written as a dot in the source regular expression,
the color name, and the closing angle bracket. -/
def cOpenPat (name : List Char) : PatChar × List PatChar :=
  (PatChar.lit '<', PatChar.lit 'c' :: PatChar.dot :: (name.map PatChar.lit ++ [PatChar.lit '>']))

/-- The source pattern for the generic closing tag. -/
def closeTagPat : PatChar × List PatChar :=
  (PatChar.lit '<', [PatChar.lit '/', PatChar.lit 'c', PatChar.lit '>'])

/-- The source pattern for the broadcaster boilerplate fragment; the dot
between the broadcaster name and the tv part is the regex wildcard. -/
def franceTvPat : PatChar × List PatChar :=
  (PatChar.lit 'f', (("rance".toList).map PatChar.lit ++ [PatChar.dot]) ++ ("tv access".toList).map PatChar.lit)

namespace IndexTs

/-- Alternatives of the replace call in parseSubtitleFile of src/index.ts,
in source order. -/
def stripTokens : List (PatChar × List PatChar) :=
  [cOpenPat ("white".toList), cOpenPat ("magenta".toList), cOpenPat ("red".toList),
   cOpenPat ("green".toList), cOpenPat ("cyan".toList), cOpenPat ("yellow".toList),
   franceTvPat, closeTagPat]

/-- The replace step applied to a trimmed line in src/index.ts. -/
def stripLine (l : List Char) : List Char := regexReplace stripTokens [] l

/-- The multi-timestamp window trigger of src/index.ts. -/
def isTriggerLine (l : List Char) : Bool :=
  startsWithSeq ("00:30:".toList) l || startsWithSeq ("00:31:".toList) l ||
  startsWithSeq ("00:32:".toList) l || startsWithSeq ("00:33:".toList) l

/-- The forEach body of parseSubtitleFile of src/index.ts as an
accumulator recursion over the file's lines. -/
def scanLoop : Bool → List Char → List (List Char) → List Char
  | _, acc, [] => acc
  | start, acc, l :: rest =>
    let start' := start || isTriggerLine l
    let acc' := if start' && qualifiesLine l then acc ++ (stripLine (trimJS l) ++ [' ']) else acc
    scanLoop start' acc' rest

/-- parseSubtitleFile of src/index.ts on the line list of the input file. -/
def parseSubtitleFile (ls : List (List Char)) : List Char := scanLoop false [] ls

/-- The contribution of one line once the window is open. -/
def emitLine (l : List Char) : List Char :=
  if qualifiesLine l then stripLine (trimJS l) ++ [' '] else []

/-- The space-hyphen pattern of the replace in
writeHumanReadableSubtitleFile. -/
def hrPat : List (PatChar × List PatChar) := [(PatChar.lit ' ', [PatChar.lit '-'])]

/-- The fileContent computation of writeHumanReadableSubtitleFile of
src/index.ts: replace every space-hyphen occurrence by
newline-hyphen-space. -/
def humanReadableContent (content : List Char) : List Char :=
  regexReplace hrPat ('\n' :: '-' :: [' ']) content

end IndexTs

/-- Modelled from the spec: the post-processing transform described as
inserting a line break before every occurrence of the space-hyphen token,
so each occurrence of space-hyphen becomes newline-space-hyphen.  Stated
only to compare with the transform of the code. -/
def specInsertLineBreaks (content : List Char) : List Char :=
  regexReplace IndexTs.hrPat ('\n' :: ' ' :: ['-']) content

namespace Part000

/-- Alternatives of the replace call in the marker-triggered
parseSubtitleFile variant, in source order: no boilerplate alternative. -/
def stripTokens : List (PatChar × List PatChar) :=
  [cOpenPat ("white".toList), cOpenPat ("magenta".toList), cOpenPat ("red".toList),
   cOpenPat ("green".toList), cOpenPat ("cyan".toList), cOpenPat ("yellow".toList),
   closeTagPat]

/-- The replace step applied to a trimmed line in the marker variant. -/
def stripLine (l : List Char) : List Char := regexReplace stripTokens [] l

/-- The forEach body of the marker-triggered parseSubtitleFile as an
accumulator recursion.  The none result models the TypeError thrown by
trimming the out-of-bounds next-line lookahead when the trigger check
reaches the lookahead on the last line. -/
def scanLoop : Bool → Bool → List Char → List (List Char) → Option (List Char)
  | _, _, acc, [] => some acc
  | passed, start, acc, l :: rest =>
    let passed' := passed || startsWithSeq ("00:34:".toList) l
    if passed' && containsSeq ("<c.cyan>".toList) l then
      match rest with
      | [] => none
      | nxt :: _ =>
        let start' := start || (trimJS nxt).isEmpty
        let acc' := if passed' && start' && qualifiesLine l then acc ++ (stripLine (trimJS l) ++ [' ']) else acc
        scanLoop passed' start' acc' rest
    else
      let acc' := if passed' && start && qualifiesLine l then acc ++ (stripLine (trimJS l) ++ [' ']) else acc
      scanLoop passed' start acc' rest

/-- parseSubtitleFile of the marker variant on the line list of the input
file; none is the thrown lookahead TypeError. -/
def parseSubtitleFile (ls : List (List Char)) : Option (List Char) := scanLoop false false [] ls

/-- The contribution of one line once the threshold is passed and the
window is open. -/
def emitLine (l : List Char) : List Char :=
  if qualifiesLine l then stripLine (trimJS l) ++ [' '] else []

end Part000

/-- Timestamp-range line of scenario A, first cue. -/
def arrowLine32 : List Char := "00:32:10.000 --> 00:32:12.000".toList

/-- Payload line of scenario A before the intended window. -/
def beforeWindowLine : List Char := "before window".toList

/-- Timestamp-range line of scenario A, second cue. -/
def arrowLine33 : List Char := "00:33:05.000 --> 00:33:07.000".toList

/-- Tagged payload line of scenario A. -/
def themeLine : List Char := "<c.cyan>Thème</c> histoire ".toList

/-- A timestamp-range line in the fourth trigger minute. -/
def arrowLine33b : List Char := "00:33:00.000 --> 00:33:01.000".toList

/-- A timestamp-range line past the coarse threshold of the marker
variant. -/
def arrowLine34 : List Char := "00:34:00.000 --> 00:34:02.000".toList

/-- A payload line that is exactly the cyan marker token. -/
def cyanMarkerLine : List Char := "<c.cyan>".toList

/-- The seven literal markup tokens named by the markup-stripping claim. -/
def markupTokens : List (List Char) :=
  ["<c.white>".toList, "<c.magenta>".toList, "<c.red>".toList, "<c.green>".toList,
   "<c.cyan>".toList, "<c.yellow>".toList, "</c>".toList]

/-- The literal broadcaster boilerplate fragment. -/
def boilerplateChars : List Char := "france.tv access".toList

theorem matchPat_length_le {ps : List PatChar} {s r : List Char}
    (h : matchPat ps s = some r) : r.length ≤ s.length := by
  induction ps generalizing s with
  | nil => simp [matchPat] at h; simp [h]
  | cons p ps ih =>
    cases s with
    | nil => simp [matchPat] at h
    | cons c cs =>
      simp only [matchPat] at h
      cases hpc : matchPatChar p c with
      | false => rw [hpc] at h; simp at h
      | true =>
        rw [hpc] at h
        simp only [cond] at h
        exact le_trans (ih h) (Nat.le_succ _)

theorem firstMatch_length_le {alts : List (PatChar × List PatChar)} {c : Char} {cs r : List Char}
    (h : firstMatch alts (c :: cs) = some r) : r.length ≤ cs.length := by
  induction alts with
  | nil => simp [firstMatch] at h
  | cons a alts ih =>
    obtain ⟨p, ps⟩ := a
    simp only [firstMatch] at h
    cases hm : matchPat (p :: ps) (c :: cs) with
    | none => rw [hm] at h; exact ih h
    | some r' =>
      rw [hm] at h
      simp at h
      subst h
      simp only [matchPat] at hm
      cases hpc : matchPatChar p c with
      | false => rw [hpc] at hm; simp at hm
      | true => rw [hpc] at hm; simp only [cond] at hm; exact matchPat_length_le hm

theorem firstMatch_nil (alts : List (PatChar × List PatChar)) : firstMatch alts [] = none := by
  induction alts with
  | nil => rfl
  | cons a alts ih => obtain ⟨p, ps⟩ := a; simp [firstMatch, matchPat, ih]

theorem replaceF_congr (alts : List (PatChar × List PatChar)) (repl : List Char) :
    ∀ f1 f2 s, s.length ≤ f1 → s.length ≤ f2 →
    replaceF alts repl f1 s = replaceF alts repl f2 s := by
  intro f1
  induction f1 with
  | zero =>
    intro f2 s h1 _
    have : s = [] := List.eq_nil_of_length_eq_zero (Nat.le_zero.mp h1)
    subst this
    cases f2 <;> rfl
  | succ f1 ih =>
    intro f2 s h1 h2
    cases s with
    | nil => cases f2 <;> rfl
    | cons c cs =>
      cases f2 with
      | zero => simp at h2
      | succ f2 =>
        have hcs1 : cs.length ≤ f1 := by simpa using h1
        have hcs2 : cs.length ≤ f2 := by simpa using h2
        cases hm : firstMatch alts (c :: cs) with
        | some r =>
          have hr : r.length ≤ cs.length := firstMatch_length_le hm
          simp only [replaceF, hm]
          rw [ih f2 r (le_trans hr hcs1) (le_trans hr hcs2)]
        | none =>
          simp only [replaceF, hm]
          rw [ih f2 cs hcs1 hcs2]

theorem regexReplace_nil (alts : List (PatChar × List PatChar)) (repl : List Char) :
    regexReplace alts repl [] = [] := rfl

theorem regexReplace_cons_match {alts : List (PatChar × List PatChar)} {repl : List Char}
    {c : Char} {cs r : List Char} (h : firstMatch alts (c :: cs) = some r) :
    regexReplace alts repl (c :: cs) = repl ++ regexReplace alts repl r := by
  show replaceF alts repl (cs.length + 1) (c :: cs) = _
  simp only [replaceF, h]
  rw [replaceF_congr alts repl cs.length r.length r (firstMatch_length_le h) le_rfl]
  rfl

theorem regexReplace_cons_nomatch {alts : List (PatChar × List PatChar)} {repl : List Char}
    {c : Char} {cs : List Char} (h : firstMatch alts (c :: cs) = none) :
    regexReplace alts repl (c :: cs) = c :: regexReplace alts repl cs := by
  show replaceF alts repl (cs.length + 1) (c :: cs) = _
  simp only [replaceF, h]
  rfl

theorem startsWithSeq_append {t s : List Char} (u : List Char)
    (h : startsWithSeq t s = true) : startsWithSeq t (s ++ u) = true := by
  induction t generalizing s with
  | nil => simp [startsWithSeq]
  | cons p ps ih =>
    cases s with
    | nil => simp [startsWithSeq] at h
    | cons c cs =>
      simp only [startsWithSeq, Bool.and_eq_true] at h
      simp only [List.cons_append, startsWithSeq, Bool.and_eq_true]
      exact ⟨h.1, ih h.2⟩

theorem startsWithSeq_sep {t : List Char} (hsp : ' ' ∉ t) :
    ∀ x y, startsWithSeq t (x ++ ' ' :: y) = true → startsWithSeq t x = true := by
  induction t with
  | nil => intro x y _; simp [startsWithSeq]
  | cons p ps ih =>
    intro x y h
    cases x with
    | nil =>
      exfalso
      simp only [List.nil_append, startsWithSeq, Bool.and_eq_true, beq_iff_eq] at h
      exact hsp (h.1 ▸ List.mem_cons_self p ps)
    | cons c cs =>
      simp only [List.cons_append, startsWithSeq, Bool.and_eq_true] at h
      simp only [startsWithSeq, Bool.and_eq_true]
      exact ⟨h.1, ih (fun hm => hsp (List.mem_cons_of_mem p hm)) cs y h.2⟩

theorem containsSeq_ne_nil {t s : List Char} (h : containsSeq t s = false) : t ≠ [] := by
  intro heq
  subst heq
  cases s with
  | nil => simp [containsSeq, List.isEmpty] at h
  | cons c cs => simp [containsSeq, startsWithSeq] at h

theorem containsSeq_append_of {t : List Char} :
    ∀ x y, containsSeq t x = true → containsSeq t (x ++ y) = true := by
  intro x
  induction x with
  | nil =>
    intro y h
    cases t with
    | nil =>
      cases y with
      | nil => simpa using h
      | cons d ds => simp [containsSeq, startsWithSeq]
    | cons a ts => simp [containsSeq, List.isEmpty] at h
  | cons c cs ih =>
    intro y h
    simp only [containsSeq, Bool.or_eq_true] at h
    simp only [List.cons_append, containsSeq, Bool.or_eq_true]
    rcases h with h | h
    · left
      have := startsWithSeq_append y h
      simpa using this
    · right
      exact ih y h

theorem containsSeq_append_left {t : List Char} (x y : List Char)
    (h : containsSeq t (x ++ y) = false) : containsSeq t x = false := by
  cases hc : containsSeq t x with
  | false => rfl
  | true => rw [containsSeq_append_of x y hc] at h; exact h

theorem containsSeq_sep {t : List Char} (hsp : ' ' ∉ t) (hne : t ≠ []) :
    ∀ x y, containsSeq t x = false → containsSeq t y = false →
    containsSeq t (x ++ ' ' :: y) = false := by
  intro x
  induction x with
  | nil =>
    intro y _ hy
    simp only [List.nil_append, containsSeq, Bool.or_eq_false_iff]
    refine ⟨?_, hy⟩
    cases t with
    | nil => exact absurd rfl hne
    | cons a ts =>
      simp only [startsWithSeq, Bool.and_eq_false_iff]
      left
      simp only [beq_eq_false_iff_ne, ne_eq]
      intro heq
      exact hsp (heq ▸ List.mem_cons_self a ts)
  | cons c cs ih =>
    intro y hx hy
    simp only [containsSeq, Bool.or_eq_false_iff] at hx
    simp only [List.cons_append, containsSeq, Bool.or_eq_false_iff]
    constructor
    · cases hsw : startsWithSeq t (c :: (cs ++ ' ' :: y)) with
      | false => rfl
      | true =>
        have : startsWithSeq t (c :: cs) = true := by
          have h2 := startsWithSeq_sep hsp (c :: cs) y (by simpa using hsw)
          exact h2
        rw [this] at hx
        exact absurd hx.1 (by simp)
    · exact ih y hx.2 hy

theorem containsSeq_nil_of_ne {t : List Char} (hne : t ≠ []) : containsSeq t [] = false := by
  cases t with
  | nil => exact absurd rfl hne
  | cons a ts => simp [containsSeq, List.isEmpty]

theorem containsSeq_chunk {t s : List Char} (hsp : ' ' ∉ t) (hne : t ≠ [])
    (hs : containsSeq t s = false) : containsSeq t (s ++ [' ']) = false :=
  containsSeq_sep hsp hne s [] hs (containsSeq_nil_of_ne hne)

theorem containsSeq_acc_extend {t acc s : List Char} (hsp : ' ' ∉ t) (hne : t ≠ [])
    (hacc : containsSeq t acc = false)
    (hsa : acc = [] ∨ ∃ y, acc = y ++ [' '])
    (hs : containsSeq t s = false) :
    containsSeq t (acc ++ (s ++ [' '])) = false := by
  rcases hsa with rfl | ⟨y, rfl⟩
  · simpa using containsSeq_chunk hsp hne hs
  · have hy : containsSeq t y = false := containsSeq_append_left y [' '] hacc
    have : y ++ [' '] ++ (s ++ [' ']) = y ++ ' ' :: (s ++ [' ']) := by simp
    rw [this]
    exact containsSeq_sep hsp hne y (s ++ [' ']) hy (containsSeq_chunk hsp hne hs)

theorem IndexTs.scanLoop_open_emits : ∀ (ls : List (List Char)) (acc : List Char),
    IndexTs.scanLoop true acc ls = acc ++ (ls.map IndexTs.emitLine).join := by
  intro ls
  induction ls with
  | nil => intro acc; simp [IndexTs.scanLoop]
  | cons l rest ih =>
    intro acc
    have step : IndexTs.scanLoop true acc (l :: rest)
        = IndexTs.scanLoop true (acc ++ IndexTs.emitLine l) rest := by
      cases hq : qualifiesLine l <;> simp [IndexTs.scanLoop, IndexTs.emitLine, hq]
    rw [step, ih]
    simp [List.append_assoc]

theorem IndexTs.scanLoop_closed : ∀ (ls : List (List Char)) (acc : List Char),
    IndexTs.scanLoop false acc ls
      = acc ++ ((ls.drop (ls.findIdx IndexTs.isTriggerLine)).map IndexTs.emitLine).join := by
  intro ls
  induction ls with
  | nil => intro acc; simp [IndexTs.scanLoop]
  | cons l rest ih =>
    intro acc
    cases ht : IndexTs.isTriggerLine l with
    | true =>
      have step : IndexTs.scanLoop false acc (l :: rest)
          = IndexTs.scanLoop true (acc ++ IndexTs.emitLine l) rest := by
        cases hq : qualifiesLine l <;> simp [IndexTs.scanLoop, IndexTs.emitLine, ht, hq]
      rw [step, IndexTs.scanLoop_open_emits]
      simp [List.findIdx_cons, ht, List.append_assoc]
    | false =>
      have step : IndexTs.scanLoop false acc (l :: rest) = IndexTs.scanLoop false acc rest := by
        simp [IndexTs.scanLoop, ht]
      rw [step, ih]
      simp [List.findIdx_cons, ht]

theorem IndexTs.scanLoop_skip : ∀ (pre ls : List (List Char)) (acc : List Char),
    (∀ x ∈ pre, IndexTs.isTriggerLine x = false) →
    IndexTs.scanLoop false acc (pre ++ ls) = IndexTs.scanLoop false acc ls := by
  intro pre
  induction pre with
  | nil => intro ls acc _; rfl
  | cons p pre ih =>
    intro ls acc hpre
    have hp : IndexTs.isTriggerLine p = false := hpre p (List.mem_cons_self p pre)
    have step : IndexTs.scanLoop false acc ((p :: pre) ++ ls)
        = IndexTs.scanLoop false acc (pre ++ ls) := by
      simp [IndexTs.scanLoop, hp]
    rw [step, ih ls acc (fun x hx => hpre x (List.mem_cons_of_mem p hx))]

theorem Part000.scanLoop_open_option : ∀ (ls : List (List Char)) (acc out : List Char),
    Part000.scanLoop true true acc ls = some out →
    out = acc ++ (ls.map Part000.emitLine).join := by
  intro ls
  induction ls with
  | nil =>
    intro acc out h
    simp only [Part000.scanLoop, Option.some.injEq] at h
    simp [← h]
  | cons l rest ih =>
    intro acc out h
    cases hc : containsSeq ['<', 'c', '.', 'c', 'y', 'a', 'n', '>'] l with
    | true =>
      cases rest with
      | nil =>
        rw [show Part000.scanLoop true true acc [l] = none from by
          simp [Part000.scanLoop, hc]] at h
        cases h
      | cons nxt rest' =>
        have step : Part000.scanLoop true true acc (l :: nxt :: rest')
            = Part000.scanLoop true true (acc ++ Part000.emitLine l) (nxt :: rest') := by
          cases hq : qualifiesLine l <;> simp [Part000.scanLoop, Part000.emitLine, hc, hq]
        rw [step] at h
        rw [ih (acc ++ Part000.emitLine l) out h]
        simp [List.append_assoc]
    | false =>
      have step : Part000.scanLoop true true acc (l :: rest)
          = Part000.scanLoop true true (acc ++ Part000.emitLine l) rest := by
        cases hq : qualifiesLine l <;> simp [Part000.scanLoop, Part000.emitLine, hc, hq]
      rw [step] at h
      rw [ih (acc ++ Part000.emitLine l) out h]
      simp [List.append_assoc]

theorem Part000.scanLoop_closed_skip (p : Bool) (acc l : List Char) :
    ∀ rest : List (List Char), containsSeq ("<c.cyan>".toList) l = false →
    Part000.scanLoop p false acc (l :: rest)
      = Part000.scanLoop (p || startsWithSeq ("00:34:".toList) l) false acc rest := by
  intro rest hc
  have hc' : containsSeq ['<', 'c', '.', 'c', 'y', 'a', 'n', '>'] l = false := hc
  simp [Part000.scanLoop, hc']

theorem IndexTs.scanLoop_no_token (t : List Char) (hsp : ' ' ∉ t) (hne : t ≠ []) :
    ∀ (ls : List (List Char)) (st : Bool) (acc : List Char),
    containsSeq t acc = false → (acc = [] ∨ ∃ y, acc = y ++ [' ']) →
    (∀ l ∈ ls, containsSeq t (IndexTs.stripLine (trimJS l)) = false) →
    containsSeq t (IndexTs.scanLoop st acc ls) = false := by
  intro ls
  induction ls with
  | nil => intro st acc hacc _ _; simpa [IndexTs.scanLoop] using hacc
  | cons l rest ih =>
    intro st acc hacc hsa hls
    have hl := hls l (List.mem_cons_self l rest)
    have hrest := fun x hx => hls x (List.mem_cons_of_mem l hx)
    simp only [IndexTs.scanLoop]
    split
    · exact ih _ _ (containsSeq_acc_extend hsp hne hacc hsa hl)
        (Or.inr ⟨acc ++ IndexTs.stripLine (trimJS l), by simp⟩) hrest
    · exact ih _ _ hacc hsa hrest

theorem Part000.scanLoop_cons_eq (p s : Bool) (acc l : List Char) (rest : List (List Char)) :
    Part000.scanLoop p s acc (l :: rest) =
      (if (p || startsWithSeq ("00:34:".toList) l) && containsSeq ("<c.cyan>".toList) l then
        match rest with
        | [] => none
        | nxt :: _ =>
          Part000.scanLoop (p || startsWithSeq ("00:34:".toList) l) (s || (trimJS nxt).isEmpty)
            (if (p || startsWithSeq ("00:34:".toList) l) && (s || (trimJS nxt).isEmpty) && qualifiesLine l then
              acc ++ (Part000.stripLine (trimJS l) ++ [' ']) else acc) rest
      else
        Part000.scanLoop (p || startsWithSeq ("00:34:".toList) l) s
          (if (p || startsWithSeq ("00:34:".toList) l) && s && qualifiesLine l then
            acc ++ (Part000.stripLine (trimJS l) ++ [' ']) else acc) rest) := rfl

theorem Part000.scanLoop_no_token_opt (t : List Char) (hsp : ' ' ∉ t) (hne : t ≠ []) :
    ∀ (ls : List (List Char)) (p s : Bool) (acc out : List Char),
    containsSeq t acc = false → (acc = [] ∨ ∃ y, acc = y ++ [' ']) →
    (∀ l ∈ ls, containsSeq t (Part000.stripLine (trimJS l)) = false) →
    Part000.scanLoop p s acc ls = some out →
    containsSeq t out = false := by
  intro ls
  induction ls with
  | nil =>
    intro p s acc out hacc _ _ h
    simp only [Part000.scanLoop, Option.some.injEq] at h
    rw [← h]
    exact hacc
  | cons l rest ih =>
    intro p s acc out hacc hsa hls h
    have hl := hls l (List.mem_cons_self l rest)
    have hrest := fun x hx => hls x (List.mem_cons_of_mem l hx)
    cases rest with
    | nil =>
      rw [Part000.scanLoop_cons_eq] at h
      dsimp only at h
      split at h
      · exact absurd h (by simp)
      · split at h
        · simp only [Part000.scanLoop, Option.some.injEq] at h
          rw [← h]
          exact containsSeq_acc_extend hsp hne hacc hsa hl
        · simp only [Part000.scanLoop, Option.some.injEq] at h
          rw [← h]
          exact hacc
    | cons nxt rest' =>
      rw [Part000.scanLoop_cons_eq] at h
      dsimp only at h
      split at h
      · split at h
        · exact ih _ _ _ _ (containsSeq_acc_extend hsp hne hacc hsa hl)
            (Or.inr ⟨acc ++ Part000.stripLine (trimJS l), by simp⟩) hrest h
        · exact ih _ _ _ _ hacc hsa hrest h
      · split at h
        · exact ih _ _ _ _ (containsSeq_acc_extend hsp hne hacc hsa hl)
            (Or.inr ⟨acc ++ Part000.stripLine (trimJS l), by simp⟩) hrest h
        · exact ih _ _ _ _ hacc hsa hrest h

theorem IndexTs.firstMatch_skip {x : Char} (s : List Char)
    (h1 : ('<' == x) = false) (h2 : ('f' == x) = false) :
    firstMatch IndexTs.stripTokens (x :: s) = none := by
  simp [IndexTs.stripTokens, cOpenPat, closeTagPat, franceTvPat, firstMatch, matchPat,
    matchPatChar, h1, h2]

theorem IndexTs.stripLine_boilerplate_split : ∀ (a b : List Char), '<' ∉ a → 'f' ∉ a →
    IndexTs.stripLine (a ++ (boilerplateChars ++ b)) = a ++ IndexTs.stripLine b := by
  intro a
  induction a with
  | nil =>
    intro b _ _
    have hm : firstMatch IndexTs.stripTokens ('f' :: (("rance.tv access".toList) ++ b)) = some b := rfl
    have step := @regexReplace_cons_match IndexTs.stripTokens [] 'f' (("rance.tv access".toList) ++ b) b hm
    simp only [List.nil_append]
    exact step
  | cons x a' ih =>
    intro b hlt hf
    have hx1 : ('<' == x) = false := by
      simp only [beq_eq_false_iff_ne, ne_eq]
      intro he
      exact hlt (List.mem_cons.mpr (Or.inl he))
    have hx2 : ('f' == x) = false := by
      simp only [beq_eq_false_iff_ne, ne_eq]
      intro he
      exact hf (List.mem_cons.mpr (Or.inl he))
    have hm : firstMatch IndexTs.stripTokens (x :: (a' ++ (boilerplateChars ++ b))) = none :=
      IndexTs.firstMatch_skip _ hx1 hx2
    have step := @regexReplace_cons_nomatch IndexTs.stripTokens [] x (a' ++ (boilerplateChars ++ b)) hm
    calc IndexTs.stripLine ((x :: a') ++ (boilerplateChars ++ b))
        = x :: IndexTs.stripLine (a' ++ (boilerplateChars ++ b)) := step
      _ = x :: (a' ++ IndexTs.stripLine b) := by
          rw [ih b (fun hm2 => hlt (List.mem_cons_of_mem x hm2))
            (fun hm2 => hf (List.mem_cons_of_mem x hm2))]
      _ = (x :: a') ++ IndexTs.stripLine b := rfl

theorem IndexTs.hr_firstMatch_hit (s : List Char) :
    firstMatch IndexTs.hrPat (' ' :: '-' :: s) = some s := rfl

theorem IndexTs.hr_firstMatch_miss1 {x : Char} (s : List Char) (h : (' ' == x) = false) :
    firstMatch IndexTs.hrPat (x :: s) = none := by
  simp [IndexTs.hrPat, firstMatch, matchPat, matchPatChar, h]

theorem IndexTs.hr_firstMatch_single (x : Char) :
    firstMatch IndexTs.hrPat [x] = none := by
  cases h : (' ' == x) <;> simp [IndexTs.hrPat, firstMatch, matchPat, matchPatChar, h]

theorem IndexTs.hr_firstMatch_miss2 {y : Char} (x : Char) (s : List Char)
    (h : ('-' == y) = false) :
    firstMatch IndexTs.hrPat (x :: y :: s) = none := by
  cases hx : (' ' == x) <;> simp [IndexTs.hrPat, firstMatch, matchPat, matchPatChar, hx, h]

theorem IndexTs.humanReadable_id : ∀ (c : List Char),
    containsSeq [' ', '-'] c = false → IndexTs.humanReadableContent c = c := by
  intro c
  induction c with
  | nil => intro _; rfl
  | cons x cs ih =>
    intro h
    simp only [containsSeq, Bool.or_eq_false_iff] at h
    obtain ⟨h1, h2⟩ := h
    have hm : firstMatch IndexTs.hrPat (x :: cs) = none := by
      cases hx : (' ' == x) with
      | false => exact IndexTs.hr_firstMatch_miss1 cs hx
      | true =>
        cases cs with
        | nil => exact IndexTs.hr_firstMatch_single x
        | cons y cs' =>
          have hy : ('-' == y) = false := by
            simp only [startsWithSeq, hx, Bool.true_and] at h1
            simpa [startsWithSeq] using h1
          exact IndexTs.hr_firstMatch_miss2 x cs' hy
    have step := @regexReplace_cons_nomatch IndexTs.hrPat ('\n' :: '-' :: [' ']) x cs hm
    calc IndexTs.humanReadableContent (x :: cs)
        = x :: IndexTs.humanReadableContent cs := step
      _ = x :: cs := by rw [ih h2]

theorem IndexTs.humanReadable_split : ∀ (a b : List Char),
    containsSeq [' ', '-'] a = false →
    IndexTs.humanReadableContent (a ++ ' ' :: '-' :: b)
      = a ++ '\n' :: '-' :: ' ' :: IndexTs.humanReadableContent b := by
  intro a
  induction a with
  | nil =>
    intro b _
    have step := @regexReplace_cons_match IndexTs.hrPat ('\n' :: '-' :: [' ']) ' ' ('-' :: b) b
      (IndexTs.hr_firstMatch_hit b)
    simpa using step
  | cons x a' ih =>
    intro b h
    simp only [containsSeq, Bool.or_eq_false_iff] at h
    obtain ⟨h1, h2⟩ := h
    have hm : firstMatch IndexTs.hrPat (x :: (a' ++ ' ' :: '-' :: b)) = none := by
      cases hx : (' ' == x) with
      | false => exact IndexTs.hr_firstMatch_miss1 _ hx
      | true =>
        cases a' with
        | nil => exact IndexTs.hr_firstMatch_miss2 x ('-' :: b) (by decide)
        | cons y a'' =>
          have hy : ('-' == y) = false := by
            simp only [startsWithSeq, hx, Bool.true_and] at h1
            simpa [startsWithSeq] using h1
          exact IndexTs.hr_firstMatch_miss2 x (a'' ++ ' ' :: '-' :: b) hy
    have step := @regexReplace_cons_nomatch IndexTs.hrPat ('\n' :: '-' :: [' ']) x
      (a' ++ ' ' :: '-' :: b) hm
    calc IndexTs.humanReadableContent ((x :: a') ++ ' ' :: '-' :: b)
        = x :: IndexTs.humanReadableContent (a' ++ ' ' :: '-' :: b) := step
      _ = x :: (a' ++ '\n' :: '-' :: ' ' :: IndexTs.humanReadableContent b) := by rw [ih b h2]
      _ = (x :: a') ++ '\n' :: '-' :: ' ' :: IndexTs.humanReadableContent b := rfl

/-- Complete characterization of one closed-state step of the marker
variant: the lookahead crash at a trigger check on the last line, the
opening step at a trigger line (which appends that line's own
contribution), a marker line whose next line is not blank (the window
stays closed and the accumulator is unchanged), and any other line (the
window stays closed and the accumulator is unchanged). -/
theorem Part000.scanLoop_closed_step (p : Bool) (acc l : List Char) (rest : List (List Char)) :
    Part000.scanLoop p false acc (l :: rest) =
      (if (p || startsWithSeq ("00:34:".toList) l) && containsSeq ("<c.cyan>".toList) l then
        match rest with
        | [] => none
        | nxt :: _ =>
          if (trimJS nxt).isEmpty then
            Part000.scanLoop (p || startsWithSeq ("00:34:".toList) l) true
              (acc ++ Part000.emitLine l) rest
          else
            Part000.scanLoop (p || startsWithSeq ("00:34:".toList) l) false acc rest
      else
        Part000.scanLoop (p || startsWithSeq ("00:34:".toList) l) false acc rest) := by
  rw [Part000.scanLoop_cons_eq]
  cases hps : (p || startsWithSeq ['0', '0', ':', '3', '4', ':'] l) with
  | false => simp [hps]
  | true =>
    cases hcy : containsSeq ['<', 'c', '.', 'c', 'y', 'a', 'n', '>'] l with
    | false => simp [hps, hcy]
    | true =>
      cases rest with
      | nil => simp [hps, hcy]
      | cons nxt rest' =>
        cases hb : (trimJS nxt).isEmpty with
        | true => cases hq : qualifiesLine l <;> simp [hps, hcy, hb, hq, Part000.emitLine]
        | false => simp [hps, hcy, hb]

/-- A scan of the marker variant that starts with the window closed and
completes produces the accumulator followed by the contributions of one
contiguous tail of the lines: nothing scanned while the window was closed
is ever appended, and from the trigger line onward every contribution is
the per-line emission. -/
theorem Part000.scanLoop_closed_suffix : ∀ (ls : List (List Char)) (p : Bool) (acc out : List Char),
    Part000.scanLoop p false acc ls = some out →
    ∃ tl, tl <:+ ls ∧ out = acc ++ (tl.map Part000.emitLine).join := by
  intro ls
  induction ls with
  | nil =>
    intro p acc out h
    simp only [Part000.scanLoop, Option.some.injEq] at h
    exact ⟨[], List.nil_suffix, by simp [← h]⟩
  | cons l rest ih =>
    intro p acc out h
    rw [Part000.scanLoop_closed_step] at h
    split at h
    · rename_i hcond
      cases rest with
      | nil => simp at h
      | cons nxt rest' =>
        dsimp only at h
        split at h
        · have hp : (p || startsWithSeq ("00:34:".toList) l) = true := by
            cases hpv : (p || startsWithSeq ("00:34:".toList) l) with
            | true => rfl
            | false => rw [hpv] at hcond; simp at hcond
          rw [hp] at h
          have hout := Part000.scanLoop_open_option (nxt :: rest') (acc ++ Part000.emitLine l) out h
          refine ⟨l :: nxt :: rest', List.suffix_refl _, ?_⟩
          rw [hout]
          simp [List.append_assoc]
        · obtain ⟨tl, hs, ho⟩ := ih _ _ _ h
          exact ⟨tl, hs.trans (List.suffix_cons l (nxt :: rest')), ho⟩
    · obtain ⟨tl, hs, ho⟩ := ih _ _ _ h
      exact ⟨tl, hs.trans (List.suffix_cons l rest), ho⟩

/-- C1: the claim states that evaluating the marker-trigger check on the
last line of the line sequence does not throw and that the scan completes
normally for every input file.  The code contradicts this: on a file whose
last line contains the cyan marker once the threshold has been passed, the
lookahead indexes past the end of the array and trimming the missing line
throws, modelled here as the parse returning none instead of a transcript. -/
theorem part000_lookahead_crashes_on_last_line :
    Part000.parseSubtitleFile [arrowLine34, cyanMarkerLine] = none := by decide

/-- C2 counterexample: with the threshold passed and the next qualifying
block being the cyan marker line immediately followed by a blank line, the
transcript is a separator space followed by the later content, not the
content alone: the marker line contributes a space, refuting the claim
that the marker line contributes nothing to the output. -/
theorem part000_marker_line_contributes_space :
    Part000.parseSubtitleFile [arrowLine34, cyanMarkerLine, [], ("Bonjour".toList)]
        = some (" Bonjour ".toList)
      ∧ Part000.parseSubtitleFile [arrowLine34, cyanMarkerLine, [], ("Bonjour".toList)]
        ≠ some ("Bonjour ".toList) :=
  ⟨by decide, by decide⟩

/-- C2 amended: when the threshold has been passed and a line that is
exactly the cyan marker token is immediately followed by a blank line, the
window opens at the marker line itself: that same iteration appends the
marker line's cleaned text (empty for the bare token) plus the separator
space, and the scan continues with the window open at the blank line. -/
theorem part000_window_opens_at_marker_line (acc : List Char) (rest : List (List Char)) :
    Part000.scanLoop true false acc (cyanMarkerLine :: [] :: rest)
      = Part000.scanLoop true true (acc ++ [' ']) ([] :: rest) := rfl

/-- C3 counterexample: on the scenario input the parser of src/index.ts
also returns the pre-window payload line, because the first input line
starts with one of the trigger prefixes of the multi-timestamp policy, so
the claimed output that omits it is wrong for this code. -/
theorem scenario_a_includes_pre_window_line :
    IndexTs.parseSubtitleFile [arrowLine32, beforeWindowLine, arrowLine33, themeLine]
        = ("before window Thème histoire ".toList)
      ∧ ("before window Thème histoire ".toList) ≠ ("Thème histoire ".toList) :=
  ⟨by decide, by decide⟩

/-- C3 amended: on the scenario input the parser returns the pre-window
payload line followed by the cleaned tagged line: the window opens at the
first line (its minute prefix is among the triggers), the color tags are
stripped and the trailing space is present. -/
theorem scenario_a_output_under_multi_trigger :
    IndexTs.parseSubtitleFile [arrowLine32, beforeWindowLine, arrowLine33, themeLine]
      = ("before window Thème histoire ".toList) := by decide

/-- C5: window monotonicity.  For the multi-trigger variant the output
equals the cleaned contributions of exactly the lines from the first
trigger line onward, so no qualifying line before the trigger is appended
and every qualifying line after it is.  For the marker variant: a
completed scan in the open state appends the contribution of every
subsequent line; every closed-state step is one of four shapes — the
lookahead crash at the final line, the opening step at the trigger line
(which appends that line's own contribution and after which the window
never closes), a marker line whose next line is not blank (accumulator
unchanged, window still closed), or any other line (accumulator
unchanged, window still closed) — and consequently every completed parse
is the concatenation of the contributions of one contiguous tail of the
lines, so no qualifying line before the trigger is ever appended. -/
theorem window_open_is_monotone :
    (∀ ls : List (List Char), IndexTs.parseSubtitleFile ls
        = ((ls.drop (ls.findIdx IndexTs.isTriggerLine)).map IndexTs.emitLine).join)
      ∧ (∀ (ls : List (List Char)) (acc out : List Char),
          Part000.scanLoop true true acc ls = some out →
          out = acc ++ (ls.map Part000.emitLine).join)
      ∧ (∀ (p : Bool) (acc l : List Char) (rest : List (List Char)),
          Part000.scanLoop p false acc (l :: rest) =
            (if (p || startsWithSeq ("00:34:".toList) l) && containsSeq ("<c.cyan>".toList) l then
              match rest with
              | [] => none
              | nxt :: _ =>
                if (trimJS nxt).isEmpty then
                  Part000.scanLoop (p || startsWithSeq ("00:34:".toList) l) true
                    (acc ++ Part000.emitLine l) rest
                else
                  Part000.scanLoop (p || startsWithSeq ("00:34:".toList) l) false acc rest
            else
              Part000.scanLoop (p || startsWithSeq ("00:34:".toList) l) false acc rest))
      ∧ (∀ (ls : List (List Char)) (out : List Char),
          Part000.parseSubtitleFile ls = some out →
          ∃ tl, tl <:+ ls ∧ out = (tl.map Part000.emitLine).join) := by
  refine ⟨?_, ?_, ?_, ?_⟩
  · intro ls
    have h := IndexTs.scanLoop_closed ls []
    simpa [IndexTs.parseSubtitleFile] using h
  · exact Part000.scanLoop_open_option
  · intro p acc l rest
    exact Part000.scanLoop_closed_step p acc l rest
  · intro ls out h
    obtain ⟨tl, hs, ho⟩ := Part000.scanLoop_closed_suffix ls false [] out h
    exact ⟨tl, hs, by simpa using ho⟩

/-- C5 witness: the theorem applied at concrete inputs, discharging its
hypotheses there. -/
theorem window_open_is_monotone_witness :
    (Part000.scanLoop true true [] [("Salut".toList)] = some ("Salut ".toList)
      ∧ ("Salut ".toList) = [] ++ (([("Salut".toList)].map Part000.emitLine)).join)
      ∧ (Part000.parseSubtitleFile [arrowLine34, cyanMarkerLine, [], ("Bonjour".toList)]
          = some (" Bonjour ".toList)
      ∧ ∃ tl, tl <:+ [arrowLine34, cyanMarkerLine, [], ("Bonjour".toList)]
          ∧ (" Bonjour ".toList) = (tl.map Part000.emitLine).join) :=
  ⟨⟨by decide, window_open_is_monotone.2.1 [("Salut".toList)] [] ("Salut ".toList) (by decide)⟩,
   ⟨by decide, window_open_is_monotone.2.2.2 [arrowLine34, cyanMarkerLine, [], ("Bonjour".toList)]
      (" Bonjour ".toList) (by decide)⟩⟩

/-- C7: line exclusion.  A line that is blank after trimming, contains the
arrow after trimming, or is a bare integer after trimming contributes
nothing in either variant; the output of the multi-trigger parser is
exactly the concatenation of per-line contributions from the first
trigger onward, and every completed parse of the marker variant, whatever
the window state did, is the concatenation of per-line contributions of
one contiguous tail of the lines — so an excluded line contributes
nothing in any position, including as the marker trigger line itself. -/
theorem excluded_lines_contribute_nothing :
    (∀ l : List Char,
        (trimJS l).isEmpty = true ∨ containsSeq ("-->".toList) (trimJS l) = true
          ∨ isBareInt (trimJS l) = true →
        IndexTs.emitLine l = [] ∧ Part000.emitLine l = [])
      ∧ (∀ ls : List (List Char), IndexTs.parseSubtitleFile ls
          = ((ls.drop (ls.findIdx IndexTs.isTriggerLine)).map IndexTs.emitLine).join)
      ∧ (∀ (ls : List (List Char)) (acc out : List Char),
          Part000.scanLoop true true acc ls = some out →
          out = acc ++ (ls.map Part000.emitLine).join)
      ∧ (∀ (ls : List (List Char)) (out : List Char),
          Part000.parseSubtitleFile ls = some out →
          ∃ tl, tl <:+ ls ∧ out = (tl.map Part000.emitLine).join) := by
  refine ⟨?_, ?_, ?_, ?_⟩
  · intro l h
    have hq : qualifiesLine l = false := by
      rcases h with h | h | h
      · simp [qualifiesLine, h]
      · have h' : containsSeq ['-', '-', '>'] (trimJS l) = true := h
        simp [qualifiesLine, h']
      · simp [qualifiesLine, h]
    exact ⟨by simp [IndexTs.emitLine, hq], by simp [Part000.emitLine, hq]⟩
  · intro ls
    have h := IndexTs.scanLoop_closed ls []
    simpa [IndexTs.parseSubtitleFile] using h
  · exact Part000.scanLoop_open_option
  · intro ls out h
    obtain ⟨tl, hs, ho⟩ := Part000.scanLoop_closed_suffix ls false [] out h
    exact ⟨tl, hs, by simpa using ho⟩

/-- C7 witness: the theorem applied at a bare integer cue-index line, and
at a completed marker-variant parse whose trigger line is itself an arrow
line, so the trigger line's own contribution is empty. -/
theorem excluded_lines_contribute_nothing_witness :
    (isBareInt (trimJS ("42".toList)) = true)
      ∧ (IndexTs.emitLine ("42".toList) = [] ∧ Part000.emitLine ("42".toList) = [])
      ∧ (∃ tl, tl <:+ [("00:34:10.000 --> 00:34:12.000 <c.cyan>".toList), [], ("Bonjour".toList)]
          ∧ ("Bonjour ".toList) = (tl.map Part000.emitLine).join) :=
  ⟨by decide,
   excluded_lines_contribute_nothing.1 ("42".toList) (Or.inr (Or.inr (by decide))),
   excluded_lines_contribute_nothing.2.2.2
     [("00:34:10.000 --> 00:34:12.000 <c.cyan>".toList), [], ("Bonjour".toList)]
     ("Bonjour ".toList) (by decide)⟩

/-- C9: under the multi-timestamp policy a line starting with the 00:31:
minute prefix opens the window even though no line of the file starts with
00:33:, provided no earlier line triggers: the output is exactly the
contributions of that line and all following ones. -/
theorem minute31_opens_window_without_minute33
    (pre post : List (List Char)) (l : List Char)
    (hpre : ∀ x ∈ pre, IndexTs.isTriggerLine x = false)
    (hl : startsWithSeq ("00:31:".toList) l = true)
    (h33 : ∀ x ∈ pre ++ l :: post, startsWithSeq ("00:33:".toList) x = false) :
    IndexTs.parseSubtitleFile (pre ++ l :: post)
      = ((l :: post).map IndexTs.emitLine).join := by
  have htrig : IndexTs.isTriggerLine l = true := by
    have hl' : startsWithSeq ['0', '0', ':', '3', '1', ':'] l = true := hl
    simp [IndexTs.isTriggerLine, hl']
  have hskip := IndexTs.scanLoop_skip pre (l :: post) [] hpre
  have hopen : IndexTs.scanLoop false [] (l :: post)
      = IndexTs.scanLoop true ([] ++ IndexTs.emitLine l) post := by
    cases hq : qualifiesLine l <;> simp [IndexTs.scanLoop, IndexTs.emitLine, htrig, hq]
  show IndexTs.scanLoop false [] (pre ++ l :: post) = _
  rw [hskip, hopen, IndexTs.scanLoop_open_emits]
  simp

/-- C9 witness: the theorem applied at a concrete file whose only trigger
minute is 00:31:. -/
theorem minute31_opens_window_without_minute33_witness :
    ((∀ x ∈ ([] : List (List Char)), IndexTs.isTriggerLine x = false)
      ∧ startsWithSeq ("00:31:".toList) ("00:31:00.000 --> 00:31:02.000".toList) = true)
      ∧ IndexTs.parseSubtitleFile [("00:31:00.000 --> 00:31:02.000".toList), ("Salut".toList)]
        = (([("00:31:00.000 --> 00:31:02.000".toList), ("Salut".toList)]).map IndexTs.emitLine).join :=
  ⟨⟨by decide, by decide⟩,
   minute31_opens_window_without_minute33 [] [("Salut".toList)]
     ("00:31:00.000 --> 00:31:02.000".toList) (by decide) (by decide) (by decide)⟩

/-- C10: a nonblank in-window line consisting only of markup (exactly the
cyan token) still qualifies for appending: its contribution is the empty
cleaned text plus the separator space, so the transcript can contain
consecutive spaces and is not whitespace-normalized; shown for both
variants. -/
theorem markup_only_line_contributes_separator :
    IndexTs.emitLine cyanMarkerLine = [' ']
      ∧ IndexTs.parseSubtitleFile [arrowLine33b, ("Bonjour".toList), cyanMarkerLine, ("Salut".toList)]
          = ("Bonjour  Salut ".toList)
      ∧ Part000.parseSubtitleFile
          [arrowLine34, cyanMarkerLine, [], ("Bonjour".toList), cyanMarkerLine, [], ("Salut".toList)]
          = some (" Bonjour  Salut ".toList)
      ∧ containsSeq ("  ".toList) ("Bonjour  Salut ".toList) = true :=
  ⟨by decide, by decide, by decide, by decide⟩

/-- C4 counterexample: the single replace pass does not rescan its output,
so deleting a token occurrence can splice the surrounding fragments into a
new token occurrence: an in-window line carrying an interrupted cyan tag
leaves the cyan token in the parser's output. -/
theorem strip_single_pass_recreates_token :
    IndexTs.parseSubtitleFile [arrowLine33b, ("<c.c<c.cyan>yan>".toList)] = ("<c.cyan> ".toList)
      ∧ containsSeq ("<c.cyan>".toList)
          (IndexTs.parseSubtitleFile [arrowLine33b, ("<c.c<c.cyan>yan>".toList)]) = true :=
  ⟨by decide, by decide⟩

/-- C4 amended: for every input file all of whose lines strip, in the
single pass applied to the trimmed line, to text free of the seven markup
tokens, the parser's output contains zero occurrences of those tokens (the
separator spaces cannot recombine fragments into a token because no token
contains a space); this holds for both variants, for the marker variant on
every completed scan. -/
theorem output_token_free_when_lines_strip_clean :
    (∀ ls : List (List Char),
        (∀ l ∈ ls, ∀ t ∈ markupTokens, containsSeq t (IndexTs.stripLine (trimJS l)) = false) →
        ∀ t ∈ markupTokens, containsSeq t (IndexTs.parseSubtitleFile ls) = false)
      ∧ (∀ (ls : List (List Char)) (out : List Char),
          Part000.parseSubtitleFile ls = some out →
          (∀ l ∈ ls, ∀ t ∈ markupTokens, containsSeq t (Part000.stripLine (trimJS l)) = false) →
          ∀ t ∈ markupTokens, containsSeq t out = false) := by
  have htok : ∀ t ∈ markupTokens, ' ' ∉ t ∧ t ≠ [] := by decide
  constructor
  · intro ls hls t ht
    exact IndexTs.scanLoop_no_token t (htok t ht).1 (htok t ht).2 ls false []
      (containsSeq_nil_of_ne (htok t ht).2) (Or.inl rfl) (fun l hl => hls l hl t ht)
  · intro ls out hout hls t ht
    exact Part000.scanLoop_no_token_opt t (htok t ht).1 (htok t ht).2 ls false false [] out
      (containsSeq_nil_of_ne (htok t ht).2) (Or.inl rfl) (fun l hl => hls l hl t ht) hout

/-- C4 witness: the theorem applied at concrete inputs whose lines strip
clean, discharging the hypotheses there. -/
theorem output_token_free_when_lines_strip_clean_witness :
    (∀ t ∈ markupTokens,
        containsSeq t (IndexTs.parseSubtitleFile [arrowLine33b, ("Bonjour".toList)]) = false)
      ∧ (∀ t ∈ markupTokens, containsSeq t (" Bonjour ".toList) = false) :=
  ⟨output_token_free_when_lines_strip_clean.1 [arrowLine33b, ("Bonjour".toList)] (by decide),
   fun t ht => output_token_free_when_lines_strip_clean.2
     [arrowLine34, cyanMarkerLine, [], ("Bonjour".toList)] (" Bonjour ".toList)
     (by decide) (by decide) t ht⟩

/-- C6 counterexample: the transform of the code maps space-hyphen to
newline-hyphen-space, which differs from inserting a line break before the
occurrence while leaving all other characters unchanged
(newline-space-hyphen): the separating space moves to after the hyphen. -/
theorem human_readable_moves_space_after_hyphen :
    IndexTs.humanReadableContent ("a -b".toList) = ("a\n- b".toList)
      ∧ specInsertLineBreaks ("a -b".toList) = ("a\n -b".toList)
      ∧ IndexTs.humanReadableContent ("a -b".toList) ≠ specInsertLineBreaks ("a -b".toList) :=
  ⟨by decide, by decide, by decide⟩

/-- C6 amended: the human-readable transform is a pure string transform
that rewrites the flat transcript solely by replacing every occurrence of
space-hyphen with newline-hyphen-space, that is, it breaks the line before
the hyphen and moves the separating space after it: it is the identity on
text without the token and distributes over the first occurrence. -/
theorem human_readable_replaces_space_hyphen :
    (∀ c : List Char, containsSeq [' ', '-'] c = false → IndexTs.humanReadableContent c = c)
      ∧ (∀ a b : List Char, containsSeq [' ', '-'] a = false →
          IndexTs.humanReadableContent (a ++ ' ' :: '-' :: b)
            = a ++ '\n' :: '-' :: ' ' :: IndexTs.humanReadableContent b) :=
  ⟨IndexTs.humanReadable_id, IndexTs.humanReadable_split⟩

/-- C6 witness: the theorem applied at a concrete transcript with one
speaker-turn token. -/
theorem human_readable_replaces_space_hyphen_witness :
    (containsSeq [' ', '-'] ("a".toList) = false)
      ∧ IndexTs.humanReadableContent (("a".toList) ++ ' ' :: '-' :: ("b".toList))
        = ("a".toList) ++ '\n' :: '-' :: ' ' :: IndexTs.humanReadableContent ("b".toList) :=
  ⟨by decide, human_readable_replaces_space_hyphen.2 ("a".toList) ("b".toList) (by decide)⟩

/-- C8 counterexample: the line is trimmed before token removal, not
afterwards, so removing the boilerplate at the end of a line leaves the
space that separated it from the real text and the contribution ends in
two spaces; under the claimed final trim that freed space would be gone. -/
theorem boilerplate_removal_leaves_freed_space :
    IndexTs.parseSubtitleFile [arrowLine33b, ("Bonjour france.tv access".toList)]
        = ("Bonjour  ".toList)
      ∧ ("Bonjour  ".toList) ≠ ("Bonjour ".toList) :=
  ⟨by decide, by decide⟩

/-- C8 amended: for a qualifying in-window line containing the boilerplate
fragment alongside other text, the parser removes the boilerplate
occurrence and retains the surrounding real text with its whitespace
intact apart from the initial trim of the line: the strip of
text-boilerplate-text keeps the leading text verbatim (shown for leading
text without the characters that start any removal pattern) and continues
on the tail, and the freed interior space stays in the contribution. -/
theorem boilerplate_removed_real_text_retained :
    (∀ a b : List Char, '<' ∉ a → 'f' ∉ a →
        IndexTs.stripLine (a ++ (boilerplateChars ++ b)) = a ++ IndexTs.stripLine b)
      ∧ IndexTs.emitLine ("Suivez france.tv access maintenant".toList)
        = ("Suivez  maintenant ".toList) := by
  constructor
  · exact IndexTs.stripLine_boilerplate_split
  · decide

/-- C8 witness: the theorem applied at a concrete line with the
boilerplate fragment at the end. -/
theorem boilerplate_removed_real_text_retained_witness :
    ('<' ∉ ("Bonjour ".toList) ∧ 'f' ∉ ("Bonjour ".toList))
      ∧ IndexTs.stripLine (("Bonjour ".toList) ++ (boilerplateChars ++ []))
        = ("Bonjour ".toList) ++ IndexTs.stripLine [] :=
  ⟨⟨by decide, by decide⟩,
   boilerplate_removed_real_text_retained.1 ("Bonjour ".toList) [] (by decide) (by decide)⟩
